import Mathlib

/-!
# Verification of `KubernetesMinVersionTransform`
(`pkg/reconciler/common/kubernetes_min_version.go`)

Shallow embedding of the manifest-mutation transformer that injects the
`KUBERNETES_MIN_VERSION` environment variable into the pod templates of
Deployment / StatefulSet / DaemonSet / Job documents.

Modelling choices:
* An environment variable is a name/value pair of strings
  (`corev1.EnvVar`, restricted to the fields the code touches).
* A container keeps its name and its ordered environment list
  (`corev1.Container`, restricted to the fields the code touches).
* An unstructured document (`unstructured.Unstructured`) is modelled by its
  kind, the metadata fields relevant to the claims (name, namespace,
  creation timestamp as a `Nat`, `0` standing for the zero/unset
  `metav1.Time{}`), its pod-template pod spec, an abstract residue
  `otherFields : Nat` standing for every other field of the document, and
  two flags `decodeOk` / `encodeOk` describing whether the external
  `scheme.Scheme.Convert` codec succeeds on this document in each
  direction.
* The four typed Go shapes (`appsv1.Deployment`, `appsv1.StatefulSet`,
  `appsv1.DaemonSet`, `batchv1.Job`) coincide on every field touched by
  the transformer (metadata plus `Spec.Template.Spec`), so one structure
  `TypedWorkload` models all four; the four switch branches of the Go
  source are kept as four separate branches over the kind string.
* Go mutates the document in place; the embedding passes the document
  state explicitly: a transformer maps a document to the post-call
  document state together with an optional error.
-/

/-- `corev1.EnvVar`: a name/value environment entry. -/
structure EnvVar where
  name : String
  value : String
deriving DecidableEq, Repr

/-- `corev1.Container`, restricted to the fields the transformer touches:
the container name and its ordered environment list. -/
structure Container where
  name : String
  env : List EnvVar
deriving DecidableEq, Repr

/-- `corev1.PodSpec`, restricted to the two ordered container sequences. -/
structure PodSpec where
  containers : List Container
  initContainers : List Container
deriving DecidableEq, Repr

/-- The part of a typed workload shape (`appsv1.Deployment`,
`appsv1.StatefulSet`, `appsv1.DaemonSet`, `batchv1.Job`) that the
transformer reads or writes: object metadata and `Spec.Template.Spec`. -/
structure TypedWorkload where
  name : String
  ns : String
  creationTimestamp : Nat
  podSpec : PodSpec
deriving DecidableEq, Repr

/-- `unstructured.Unstructured`: the self-describing document the
transformer receives.  `creationTimestamp = 0` models the zero
`metav1.Time{}`.  `otherFields` abstracts every field outside the ones
named here.  `decodeOk` / `encodeOk` model whether the external
`scheme.Scheme.Convert` codec succeeds on this document's content in the
unstructured-to-typed and typed-to-unstructured direction. -/
structure Unstructured where
  kind : String
  name : String
  ns : String
  creationTimestamp : Nat
  podSpec : PodSpec
  otherFields : Nat
  decodeOk : Bool
  encodeOk : Bool
deriving DecidableEq, Repr

/-- `version.KubernetesMinVersionKey` from `knative.dev/pkg/version`. -/
def KubernetesMinVersionKey : String := "KUBERNETES_MIN_VERSION"

/-- First-match-by-name lookup in an environment list (the lookup notion
used by the spec and by the tests' `hasEnv`). -/
def lookupEnv (n : String) : List EnvVar → Option String
  | [] => none
  | e :: es => if e.name = n then some e.value else lookupEnv n es

/-- Whether some entry of the list carries the given name. -/
def envContainsName (n : String) (es : List EnvVar) : Bool :=
  es.any (fun e => e.name = n)

/-- Replace the value at the first entry named `n` (later duplicates are
left as-is); identity when no entry is named `n`. -/
def replaceFirst (n v : String) : List EnvVar → List EnvVar
  | [] => []
  | e :: es => if e.name = n then { name := n, value := v } :: es
               else e :: replaceFirst n v es

/-- Merge a single override entry into a target list: replace the value of
the first entry with the same name in place if one exists, otherwise
append the override at the end. -/
def mergeEnvOne (tgt : List EnvVar) (ov : EnvVar) : List EnvVar :=
  if envContainsName ov.name tgt then replaceFirst ov.name ov.value tgt
  else tgt ++ [ov]

/-- Modelled from the spec: `mergeEnv` (called by
`applyMinVersionEnvVar`) is code of this repository that is not under
`src/`.  Per spec §4.1: for each override entry, in override order, if an
entry with the same name exists anywhere in the target, replace its value
in place at its existing position; otherwise append the override entry to
the end of the target. -/
def mergeEnv (overrides tgt : List EnvVar) : List EnvVar :=
  overrides.foldl mergeEnvOne tgt

/-- `applyMinVersionEnvVar` from `kubernetes_min_version.go`: merge the
override list into the environment of every container and of every init
container of the pod spec. -/
def applyMinVersionEnvVar (podSpec : PodSpec) (minVersionEnv : List EnvVar) : PodSpec :=
  { containers :=
      podSpec.containers.map (fun c => { c with env := mergeEnv minVersionEnv c.env }),
    initContainers :=
      podSpec.initContainers.map (fun c => { c with env := mergeEnv minVersionEnv c.env }) }

/-- Modelled from the spec (§6): the external
`scheme.Scheme.Convert(u, typed, nil)` decode direction — a fallible codec
producing the typed shape from the document; it reads the document and
mutates nothing. -/
def decodeWorkload (u : Unstructured) : Option TypedWorkload :=
  if u.decodeOk then
    some { name := u.name, ns := u.ns,
           creationTimestamp := u.creationTimestamp, podSpec := u.podSpec }
  else none

/-- Modelled from the spec (§6, §7): the external
`scheme.Scheme.Convert(typed, u, nil)` encode direction — a reversible,
all-or-nothing codec writing the typed shape back into the document; on
failure the document's stored form is not touched (hence the `Option`:
`none` leaves the caller holding the unmodified document). -/
def encodeWorkload (t : TypedWorkload) (u : Unstructured) : Option Unstructured :=
  if u.encodeOk then
    some { u with name := t.name, ns := t.ns,
                  creationTimestamp := t.creationTimestamp, podSpec := t.podSpec }
  else none

/-- `u.SetCreationTimestamp(metav1.Time{})`. -/
def setCreationTimestamp (u : Unstructured) (t : Nat) : Unstructured :=
  { u with creationTimestamp := t }

/-- Error message standing for a failed unstructured-to-typed convert. -/
def decodeErr : String := "convert to typed object failed"

/-- Error message standing for a failed typed-to-unstructured convert. -/
def encodeErr : String := "convert from typed object failed"

/-- One branch of the Go switch for a matched workload kind: decode into
the typed shape (returning the decode error, document untouched, on
failure); run `applyMinVersionEnvVar` on the pod spec; encode back
(returning the encode error, document untouched, on failure); on success
zero the creation timestamp (`u.SetCreationTimestamp(metav1.Time{})`). -/
def workloadMutate (minVersionEnv : List EnvVar) (u : Unstructured) :
    Unstructured × Option String :=
  match decodeWorkload u with
  | none => (u, some decodeErr)
  | some t =>
    let t2 := { t with podSpec := applyMinVersionEnvVar t.podSpec minVersionEnv }
    match encodeWorkload t2 u with
    | none => (u, some encodeErr)
    | some u2 => (setCreationTimestamp u2 0, none)

/-- `KubernetesMinVersionTransform` from `kubernetes_min_version.go`.
The Go factory reads `os.Getenv(version.KubernetesMinVersionKey)` once;
the embedding takes that value as the explicit parameter `minVersion`.
If it is empty the factory returns the transformer that always succeeds
without touching the document.  Otherwise the transformer switches on the
document kind: the branches for Deployment, StatefulSet, DaemonSet and
Job each decode into the respective typed shape, apply
`applyMinVersionEnvVar` with the single-entry override list, encode back,
and zero the creation timestamp; any other kind returns success with no
mutation. -/
def KubernetesMinVersionTransform (minVersion : String) :
    Unstructured → Unstructured × Option String :=
  if minVersion = "" then
    fun u => (u, none)
  else
    let minVersionEnv : List EnvVar :=
      [{ name := KubernetesMinVersionKey, value := minVersion }]
    fun u =>
      if u.kind = "Deployment" then workloadMutate minVersionEnv u
      else if u.kind = "StatefulSet" then workloadMutate minVersionEnv u
      else if u.kind = "DaemonSet" then workloadMutate minVersionEnv u
      else if u.kind = "Job" then workloadMutate minVersionEnv u
      else (u, none)

/-- The closed set of workload kinds handled by the switch. -/
def isWorkloadKind (k : String) : Bool :=
  k = "Deployment" || k = "StatefulSet" || k = "DaemonSet" || k = "Job"

/-- Concrete Deployment document mirroring the repository test
`TestKubernetesMinVersionTransformInjectsEnvVar`: the `controller`
container already carries a stale override value `v1.20.0`. -/
def sampleDoc : Unstructured :=
  { kind := "Deployment", name := "controller", ns := "knative-serving",
    creationTimestamp := 5, otherFields := 7, decodeOk := true, encodeOk := true,
    podSpec :=
      { containers :=
          [ { name := "controller",
              env := [ { name := "EXISTING", value := "1" },
                       { name := KubernetesMinVersionKey, value := "v1.20.0" } ] },
            { name := "webhook", env := [] } ],
        initContainers :=
          [ { name := "init-a", env := [] },
            { name := "init-b",
              env := [ { name := KubernetesMinVersionKey, value := "v1.19.0" } ] } ] } }

/-- Concrete Deployment document whose content fails the typed decode. -/
def badDoc : Unstructured :=
  { kind := "Deployment", name := "controller", ns := "knative-serving",
    creationTimestamp := 5, otherFields := 7, decodeOk := false, encodeOk := true,
    podSpec :=
      { containers := [ { name := "controller",
                          env := [ { name := "EXISTING", value := "1" } ] } ],
        initContainers := [] } }

/-- Concrete document of an unsupported kind. -/
def configMapDoc : Unstructured :=
  { kind := "ConfigMap", name := "config-domain", ns := "knative-serving",
    creationTimestamp := 9, otherFields := 3, decodeOk := false, encodeOk := false,
    podSpec := { containers := [], initContainers := [] } }

/-- Concrete Job document whose pod template has no containers at all. -/
def emptyTemplateDoc : Unstructured :=
  { kind := "Job", name := "storage-version-migration", ns := "knative-serving",
    creationTimestamp := 11, otherFields := 2, decodeOk := true, encodeOk := true,
    podSpec := { containers := [], initContainers := [] } }

/-! ## Lemmas about the env merge engine -/

theorem names_replaceFirst (n v : String) (tgt : List EnvVar) :
    (replaceFirst n v tgt).map EnvVar.name = tgt.map EnvVar.name := by
  induction tgt with
  | nil => rfl
  | cons e es ih =>
    by_cases h : e.name = n
    · simp [replaceFirst, h]
    · simp [replaceFirst, h, ih]

theorem envContainsName_congr (m : String) (es es2 : List EnvVar)
    (h : es.map EnvVar.name = es2.map EnvVar.name) :
    envContainsName m es = envContainsName m es2 := by
  have h1 : ∀ l : List EnvVar,
      envContainsName m l = (l.map EnvVar.name).any (fun x => x = m) := by
    intro l
    induction l with
    | nil => rfl
    | cons e es ih => simp [envContainsName, List.any_cons] at ih ⊢; rw [ih]
  rw [h1, h1, h]

theorem length_replaceFirst (n v : String) (tgt : List EnvVar) :
    (replaceFirst n v tgt).length = tgt.length := by
  have := names_replaceFirst n v tgt
  have h2 := congrArg List.length this
  simpa using h2

theorem replaceFirst_of_not_contains (n v : String) (tgt : List EnvVar)
    (h : envContainsName n tgt = false) : replaceFirst n v tgt = tgt := by
  induction tgt with
  | nil => rfl
  | cons e es ih =>
    simp [envContainsName, List.any_cons] at h
    simp [replaceFirst, h.1, ih (by simpa [envContainsName] using h.2)]

theorem replaceFirst_replaceFirst (n v : String) (tgt : List EnvVar) :
    replaceFirst n v (replaceFirst n v tgt) = replaceFirst n v tgt := by
  induction tgt with
  | nil => rfl
  | cons e es ih =>
    by_cases h : e.name = n
    · simp [replaceFirst, h]
    · simp [replaceFirst, h, ih]

theorem envContainsName_mergeEnvOne_self (tgt : List EnvVar) (ov : EnvVar) :
    envContainsName ov.name (mergeEnvOne tgt ov) = true := by
  by_cases h : envContainsName ov.name tgt
  · rw [mergeEnvOne, if_pos h,
      envContainsName_congr ov.name _ tgt (names_replaceFirst _ _ _)]
    exact h
  · rw [mergeEnvOne, if_neg h]
    simp [envContainsName]

theorem mergeEnvOne_idem (tgt : List EnvVar) (ov : EnvVar) :
    mergeEnvOne (mergeEnvOne tgt ov) ov = mergeEnvOne tgt ov := by
  rw [mergeEnvOne, if_pos (envContainsName_mergeEnvOne_self tgt ov)]
  by_cases h : envContainsName ov.name tgt
  · rw [mergeEnvOne, if_pos h, replaceFirst_replaceFirst]
  · simp only [Bool.not_eq_true] at h
    rw [mergeEnvOne, if_neg (by simp [h])]
    induction tgt with
    | nil => simp [replaceFirst]
    | cons e es ih =>
      simp [envContainsName, List.any_cons] at h
      simp [replaceFirst, h.1, ih (by simpa [envContainsName] using h.2)]

theorem lookupEnv_mergeEnvOne_self (tgt : List EnvVar) (ov : EnvVar) :
    lookupEnv ov.name (mergeEnvOne tgt ov) = some ov.value := by
  by_cases h : envContainsName ov.name tgt
  · rw [mergeEnvOne, if_pos h]
    induction tgt with
    | nil => simp [envContainsName] at h
    | cons e es ih =>
      by_cases he : e.name = ov.name
      · simp [replaceFirst, he, lookupEnv]
      · simp [envContainsName, List.any_cons, he] at h
        simp [replaceFirst, he, lookupEnv, ih (by simp [envContainsName, h])]
  · simp only [Bool.not_eq_true] at h
    rw [mergeEnvOne, if_neg (by simp [h])]
    induction tgt with
    | nil => simp [lookupEnv]
    | cons e es ih =>
      simp [envContainsName, List.any_cons] at h
      simp [lookupEnv, h.1, ih (by simpa [envContainsName] using h.2)]

/-! ## Frame lemmas for the env merge engine -/

theorem length_mergeEnvOne (tgt : List EnvVar) (ov : EnvVar) :
    (mergeEnvOne tgt ov).length =
      if envContainsName ov.name tgt then tgt.length else tgt.length + 1 := by
  by_cases hc : envContainsName ov.name tgt
  · simp [mergeEnvOne, hc, length_replaceFirst]
  · simp [mergeEnvOne, hc]

theorem getElem?_replaceFirst_ne (n v : String) (tgt : List EnvVar) (i : Nat)
    (e : EnvVar) (h : tgt[i]? = some e) (hne : e.name ≠ n) :
    (replaceFirst n v tgt)[i]? = some e := by
  induction tgt generalizing i with
  | nil => simp at h
  | cons a es ih =>
    cases i with
    | zero =>
      simp at h
      subst h
      simp [replaceFirst, hne]
    | succ j =>
      simp at h
      by_cases ha : a.name = n
      · simpa [replaceFirst, ha] using h
      · simpa [replaceFirst, ha] using ih j h

theorem getElem?_name_mergeEnvOne (tgt : List EnvVar) (ov : EnvVar) (i : Nat)
    (e : EnvVar) (h : tgt[i]? = some e) :
    ∃ e2, (mergeEnvOne tgt ov)[i]? = some e2 ∧ e2.name = e.name := by
  by_cases hc : envContainsName ov.name tgt
  · rw [mergeEnvOne, if_pos hc]
    have hm : ((replaceFirst ov.name ov.value tgt)[i]?).map EnvVar.name
        = (tgt[i]?).map EnvVar.name := by
      rw [← List.getElem?_map, ← List.getElem?_map, names_replaceFirst]
    rw [h] at hm
    cases h2 : (replaceFirst ov.name ov.value tgt)[i]? with
    | none => rw [h2] at hm; simp at hm
    | some e2 =>
      rw [h2] at hm
      simp at hm
      exact ⟨e2, rfl, hm⟩
  · rw [mergeEnvOne, if_neg hc]
    have hi : i < tgt.length := by
      rw [List.getElem?_eq_some] at h
      exact h.1
    rw [List.getElem?_append_left hi]
    exact ⟨e, h, rfl⟩

theorem getElem?_mergeEnvOne_ne (tgt : List EnvVar) (ov : EnvVar) (i : Nat)
    (e : EnvVar) (h : tgt[i]? = some e) (hne : e.name ≠ ov.name) :
    (mergeEnvOne tgt ov)[i]? = some e := by
  by_cases hc : envContainsName ov.name tgt
  · rw [mergeEnvOne, if_pos hc]
    exact getElem?_replaceFirst_ne ov.name ov.value tgt i e h hne
  · rw [mergeEnvOne, if_neg hc]
    have hi : i < tgt.length := by
      rw [List.getElem?_eq_some] at h
      exact h.1
    rw [List.getElem?_append_left hi]
    exact h

theorem envContainsName_mergeEnvOne_mono (m : String) (tgt : List EnvVar)
    (ov : EnvVar) (h : envContainsName m tgt = true) :
    envContainsName m (mergeEnvOne tgt ov) = true := by
  by_cases hc : envContainsName ov.name tgt
  · rw [mergeEnvOne, if_pos hc,
      envContainsName_congr m _ tgt (names_replaceFirst _ _ _)]
    exact h
  · rw [mergeEnvOne, if_neg hc]
    simp only [envContainsName, List.any_append]
    simp [envContainsName] at h
    simp [h]

theorem envContainsName_mergeEnvOne_of_contains (m : String) (tgt : List EnvVar)
    (ov : EnvVar) (h : envContainsName ov.name tgt = true) :
    envContainsName m (mergeEnvOne tgt ov) = envContainsName m tgt := by
  rw [mergeEnvOne, if_pos h]
  exact envContainsName_congr m _ tgt (names_replaceFirst _ _ _)

theorem length_filter_mono {α : Type} (p q : α → Bool) (l : List α)
    (h : ∀ a ∈ l, p a = true → q a = true) :
    (l.filter p).length ≤ (l.filter q).length := by
  induction l with
  | nil => simp
  | cons a t ih =>
    have iht := ih (fun x hx => h x (List.mem_cons_of_mem a hx))
    by_cases hp : p a = true
    · rw [List.filter_cons, if_pos hp, List.filter_cons, if_pos (h a (List.mem_cons_self a t) hp)]
      simpa using iht
    · rw [List.filter_cons, if_neg hp]
      by_cases hq : q a = true
      · rw [List.filter_cons, if_pos hq]
        simp only [List.length_cons]
        omega
      · rw [List.filter_cons, if_neg hq]
        exact iht

/-! ## Lemmas about the full merge fold -/

theorem mergeEnv_cons (ov : EnvVar) (ovs tgt : List EnvVar) :
    mergeEnv (ov :: ovs) tgt = mergeEnv ovs (mergeEnvOne tgt ov) := rfl

theorem mergeEnv_nil (tgt : List EnvVar) : mergeEnv [] tgt = tgt := rfl

theorem mergeEnv_single (ov : EnvVar) (tgt : List EnvVar) :
    mergeEnv [ov] tgt = mergeEnvOne tgt ov := rfl

theorem mergeEnv_getElem?_name (ovs tgt : List EnvVar) (i : Nat) (e : EnvVar)
    (h : tgt[i]? = some e) :
    ∃ e2, (mergeEnv ovs tgt)[i]? = some e2 ∧ e2.name = e.name := by
  induction ovs generalizing tgt e with
  | nil => exact ⟨e, h, rfl⟩
  | cons ov ovs ih =>
    obtain ⟨e1, h1, hn1⟩ := getElem?_name_mergeEnvOne tgt ov i e h
    obtain ⟨e2, h2, hn2⟩ := ih (mergeEnvOne tgt ov) e1 h1
    exact ⟨e2, by rw [mergeEnv_cons]; exact h2, hn2.trans hn1⟩

theorem mergeEnv_getElem?_frame (ovs tgt : List EnvVar) (i : Nat) (e : EnvVar)
    (h : tgt[i]? = some e) (hne : ∀ ov ∈ ovs, ov.name ≠ e.name) :
    (mergeEnv ovs tgt)[i]? = some e := by
  induction ovs generalizing tgt with
  | nil => exact h
  | cons ov ovs ih =>
    rw [mergeEnv_cons]
    have h1 : (mergeEnvOne tgt ov)[i]? = some e :=
      getElem?_mergeEnvOne_ne tgt ov i e h
        (fun hc => hne ov (List.mem_cons_self ov ovs) hc.symm)
    exact ih (mergeEnvOne tgt ov) h1 (fun o ho => hne o (List.mem_cons_of_mem ov ho))

theorem length_le_mergeEnv (ovs tgt : List EnvVar) :
    tgt.length ≤ (mergeEnv ovs tgt).length := by
  induction ovs generalizing tgt with
  | nil => exact Nat.le_refl _
  | cons ov ovs ih =>
    rw [mergeEnv_cons]
    refine Nat.le_trans ?_ (ih (mergeEnvOne tgt ov))
    rw [length_mergeEnvOne]
    by_cases hc : envContainsName ov.name tgt <;> simp [hc]

theorem mergeEnv_length_le (ovs tgt : List EnvVar) :
    (mergeEnv ovs tgt).length ≤
      tgt.length + (ovs.filter (fun ov => !envContainsName ov.name tgt)).length := by
  induction ovs generalizing tgt with
  | nil => simp [mergeEnv_nil]
  | cons ov ovs ih =>
    rw [mergeEnv_cons]
    by_cases hc : envContainsName ov.name tgt
    · have hlen : (mergeEnvOne tgt ov).length = tgt.length := by
        rw [length_mergeEnvOne, if_pos hc]
      have hfilter : ovs.filter (fun o => !envContainsName o.name (mergeEnvOne tgt ov))
          = ovs.filter (fun o => !envContainsName o.name tgt) :=
        List.filter_congr (fun o _ => by
          rw [envContainsName_mergeEnvOne_of_contains o.name tgt ov hc])
      have step := ih (mergeEnvOne tgt ov)
      rw [hlen, hfilter] at step
      refine Nat.le_trans step ?_
      rw [List.filter_cons]
      by_cases hkeep : (!envContainsName ov.name tgt) = true
      · simp [hc] at hkeep
      · rw [if_neg hkeep]
    · have hlen : (mergeEnvOne tgt ov).length = tgt.length + 1 := by
        rw [length_mergeEnvOne, if_neg hc]
      have hf : (ovs.filter (fun o => !envContainsName o.name (mergeEnvOne tgt ov))).length
          ≤ (ovs.filter (fun o => !envContainsName o.name tgt)).length := by
        refine length_filter_mono _ _ ovs (fun o _ hp => ?_)
        simp only [Bool.not_eq_true'] at hp ⊢
        by_contra hcon
        simp only [Bool.not_eq_false] at hcon
        rw [envContainsName_mergeEnvOne_mono o.name tgt ov hcon] at hp
        exact Bool.noConfusion hp
      have step := ih (mergeEnvOne tgt ov)
      rw [hlen] at step
      refine Nat.le_trans step ?_
      rw [List.filter_cons, if_pos (by simp [hc])]
      simp only [List.length_cons]
      omega

/-! ## Lemmas about the transformer dispatch -/

theorem transform_disabled_eq (u : Unstructured) :
    KubernetesMinVersionTransform "" u = (u, none) := rfl

theorem transform_workload_eq (mv : String) (u : Unstructured) (hmv : mv ≠ "")
    (hk : isWorkloadKind u.kind = true) :
    KubernetesMinVersionTransform mv u =
      workloadMutate [{ name := KubernetesMinVersionKey, value := mv }] u := by
  rw [KubernetesMinVersionTransform, if_neg hmv]
  split_ifs with h1 h2 h3 h4
  · rfl
  · rfl
  · rfl
  · rfl
  · exact absurd hk (by simp [isWorkloadKind, h1, h2, h3, h4])

theorem transform_other_eq (mv : String) (u : Unstructured)
    (hk : isWorkloadKind u.kind = false) :
    KubernetesMinVersionTransform mv u = (u, none) := by
  by_cases hmv : mv = ""
  · rw [hmv, transform_disabled_eq]
  · rw [KubernetesMinVersionTransform, if_neg hmv]
    simp only [isWorkloadKind, Bool.or_eq_false_iff, decide_eq_false_iff_not] at hk
    simp [hk.1.1.1, hk.1.1.2, hk.1.2, hk.2]

theorem workloadMutate_decode_fail (env : List EnvVar) (u : Unstructured)
    (hd : u.decodeOk = false) :
    workloadMutate env u = (u, some decodeErr) := by
  rw [workloadMutate, decodeWorkload, if_neg (by simp [hd])]

theorem workloadMutate_encode_fail (env : List EnvVar) (u : Unstructured)
    (hd : u.decodeOk = true) (he : u.encodeOk = false) :
    workloadMutate env u = (u, some encodeErr) := by
  rw [workloadMutate, decodeWorkload, if_pos hd]
  simp only
  rw [encodeWorkload, if_neg (by simp [he])]

theorem workloadMutate_success (env : List EnvVar) (u : Unstructured)
    (hd : u.decodeOk = true) (he : u.encodeOk = true) :
    workloadMutate env u =
      ({ u with podSpec := applyMinVersionEnvVar u.podSpec env,
                creationTimestamp := 0 }, none) := by
  rw [workloadMutate, decodeWorkload, if_pos hd]
  simp only
  rw [encodeWorkload, if_pos he]
  rfl

theorem workloadMutate_success_iff (env : List EnvVar) (u : Unstructured) :
    (workloadMutate env u).2 = none ↔ (u.decodeOk = true ∧ u.encodeOk = true) := by
  constructor
  · intro h
    by_cases hd : u.decodeOk = true
    · by_cases he : u.encodeOk = true
      · exact ⟨hd, he⟩
      · rw [workloadMutate_encode_fail env u hd (by simpa using he)] at h
        simp at h
    · rw [workloadMutate_decode_fail env u (by simpa using hd)] at h
      simp at h
  · rintro ⟨hd, he⟩
    rw [workloadMutate_success env u hd he]

/-! ## Idempotence helpers -/

theorem applyMinVersionEnvVar_idem_single (ps : PodSpec) (ov : EnvVar) :
    applyMinVersionEnvVar (applyMinVersionEnvVar ps [ov]) [ov]
      = applyMinVersionEnvVar ps [ov] := by
  simp only [applyMinVersionEnvVar, List.map_map]
  congr 1 <;>
    exact List.map_congr_left (fun c _ => by
      simp [Function.comp, mergeEnv_single, mergeEnvOne_idem])

/-! ## Characterization lemmas for the per-override step -/

theorem envContainsName_of_getElem? (n : String) (tgt : List EnvVar) (i : Nat)
    (h : (tgt[i]?).map EnvVar.name = some n) : envContainsName n tgt = true := by
  cases he : tgt[i]? with
  | none => rw [he] at h; simp at h
  | some e =>
    rw [he] at h
    simp at h
    have hmem : e ∈ tgt := List.getElem?_mem he
    simp [envContainsName, List.any_eq_true]
    exact ⟨e, hmem, h⟩

theorem replaceFirst_eq_set (n v : String) (tgt : List EnvVar) (i : Nat)
    (hi : (tgt[i]?).map EnvVar.name = some n)
    (hfirst : ∀ j, j < i → (tgt[j]?).map EnvVar.name ≠ some n) :
    replaceFirst n v tgt = tgt.set i { name := n, value := v } := by
  induction tgt generalizing i with
  | nil => simp at hi
  | cons e es ih =>
    cases i with
    | zero =>
      simp at hi
      simp [replaceFirst, hi]
    | succ j =>
      have hne : ¬e.name = n := by
        have := hfirst 0 (Nat.succ_pos j)
        simpa using this
      simp only [List.getElem?_cons_succ] at hi
      rw [replaceFirst]
      rw [if_neg hne]
      rw [List.set_cons_succ]
      rw [ih j hi (fun k hk => by
        have := hfirst (k + 1) (Nat.succ_lt_succ hk)
        simpa using this)]

theorem mergeEnv_fresh_distinct_append (ovs tgt : List EnvVar)
    (hfresh : ∀ ov ∈ ovs, envContainsName ov.name tgt = false)
    (hdist : List.Pairwise (fun a b => EnvVar.name a ≠ EnvVar.name b) ovs) :
    mergeEnv ovs tgt = tgt ++ ovs := by
  induction ovs generalizing tgt with
  | nil => simp [mergeEnv_nil]
  | cons ov ovs ih =>
    rw [mergeEnv_cons, mergeEnvOne,
      if_neg (by simp [hfresh ov (List.mem_cons_self ov ovs)])]
    rw [List.pairwise_cons] at hdist
    rw [ih (tgt ++ [ov]) (fun o ho => by
      simp only [envContainsName, List.any_append, Bool.or_eq_false_iff]
      refine ⟨hfresh o (List.mem_cons_of_mem ov ho), ?_⟩
      simpa [envContainsName] using hdist.1 o ho) hdist.2]
    simp

/-! ## Claim theorems -/

/-- C1: for every document of kind Deployment, StatefulSet, DaemonSet, or
Job on which the enabled transformer (non-empty override value at
construction) returns success, every container and every init container
in the resulting pod template has an environment list in which the
override name resolves, by first match, to exactly the configured
override value — never a stale pre-existing value. -/
theorem transform_enabled_injects_override (mv : String) (u : Unstructured)
    (hmv : mv ≠ "") (hk : isWorkloadKind u.kind = true)
    (hok : (KubernetesMinVersionTransform mv u).2 = none) :
    ∀ c ∈ (KubernetesMinVersionTransform mv u).1.podSpec.containers
          ++ (KubernetesMinVersionTransform mv u).1.podSpec.initContainers,
      lookupEnv KubernetesMinVersionKey c.env = some mv := by
  rw [transform_workload_eq mv u hmv hk] at hok ⊢
  obtain ⟨hd, he⟩ := (workloadMutate_success_iff _ u).mp hok
  rw [workloadMutate_success _ u hd he]
  intro c hc
  simp only [applyMinVersionEnvVar, List.mem_append, List.mem_map] at hc
  rcases hc with ⟨c0, _, hc0⟩ | ⟨c0, _, hc0⟩ <;>
  · rw [← hc0]
    rw [mergeEnv_single]
    exact lookupEnv_mergeEnvOne_self c0.env
      { name := KubernetesMinVersionKey, value := mv }

/-- C1 witness: on the test Deployment with a stale `v1.20.0` entry, the
`controller` container's post-transform environment resolves the override
name to `v1.25.0`. -/
theorem transform_enabled_injects_override_witness :
    lookupEnv KubernetesMinVersionKey
      [ { name := "EXISTING", value := "1" },
        { name := KubernetesMinVersionKey, value := "v1.25.0" } ]
      = some "v1.25.0" :=
  transform_enabled_injects_override "v1.25.0" sampleDoc (by decide) (by decide)
    (by decide)
    { name := "controller",
      env := [ { name := "EXISTING", value := "1" },
               { name := KubernetesMinVersionKey, value := "v1.25.0" } ] }
    (by decide)

/-- C2: the transformer built from an empty override value returns
success on every document and leaves it observably identical to the
input (in particular the override name stays absent from every
environment list in which it was absent before). -/
theorem transform_disabled_strict_noop (u : Unstructured) :
    KubernetesMinVersionTransform "" u = (u, none) :=
  transform_disabled_eq u

/-- C3: for every document and every fixed non-empty override value,
applying the enabled transformer twice yields exactly the result of
applying it once — no duplicated entry, no reordering, no disturbance of
other entries. -/
theorem transform_idempotent (mv : String) (hmv : mv ≠ "") (u : Unstructured) :
    KubernetesMinVersionTransform mv (KubernetesMinVersionTransform mv u).1
      = KubernetesMinVersionTransform mv u := by
  by_cases hk : isWorkloadKind u.kind = true
  · rw [transform_workload_eq mv u hmv hk]
    by_cases hd : u.decodeOk = true
    · by_cases he : u.encodeOk = true
      · rw [workloadMutate_success _ u hd he]
        simp only
        set u2 : Unstructured :=
          { u with podSpec := applyMinVersionEnvVar u.podSpec
                     [{ name := KubernetesMinVersionKey, value := mv }],
                   creationTimestamp := 0 } with hu2
        rw [transform_workload_eq mv u2 hmv hk, workloadMutate_success _ u2 hd he]
        rw [hu2]
        simp [applyMinVersionEnvVar_idem_single]
      · rw [workloadMutate_encode_fail _ u hd (by simpa using he)]
        simp only
        rw [transform_workload_eq mv u hmv hk,
          workloadMutate_encode_fail _ u hd (by simpa using he)]
    · rw [workloadMutate_decode_fail _ u (by simpa using hd)]
      simp only
      rw [transform_workload_eq mv u hmv hk,
        workloadMutate_decode_fail _ u (by simpa using hd)]
  · have hk2 : isWorkloadKind u.kind = false := by simpa using hk
    rw [transform_other_eq mv u hk2]
    simp only
    rw [transform_other_eq mv u hk2]

/-- C3 witness: idempotence at the concrete test Deployment with
override `v1.25.0`. -/
theorem transform_idempotent_witness :
    KubernetesMinVersionTransform "v1.25.0"
        (KubernetesMinVersionTransform "v1.25.0" sampleDoc).1
      = KubernetesMinVersionTransform "v1.25.0" sampleDoc :=
  transform_idempotent "v1.25.0" (by decide) sampleDoc

/-- C4 counterexample: with an empty target and the override list
`[A=1, A=2]`, the merge does not return the override list itself — the
second override replaces the first one's entry (first-match-by-name), so
the result is `[A=2]`. -/
theorem mergeEnv_empty_target_counterexample :
    mergeEnv [ { name := "A", value := "1" }, { name := "A", value := "2" } ] []
      ≠ [ { name := "A", value := "1" }, { name := "A", value := "2" } ] := by
  decide

/-- C4 (amended): the merge processes overrides in order (fold
composition over list append); each single override either is appended
to the end of the target when its name occurs nowhere in it, or replaces
the entry at the first position carrying its name in place, leaving every
other position — in particular later duplicates of that name — exactly
as-is; and for an empty target the result is exactly the override list
in override order provided the override names are pairwise distinct. -/
theorem mergeEnv_override_step_characterization
    (ov : EnvVar) (ovs ovs2 tgt : List EnvVar) :
    (mergeEnv (ovs ++ ovs2) tgt = mergeEnv ovs2 (mergeEnv ovs tgt))
  ∧ (envContainsName ov.name tgt = false → mergeEnv [ov] tgt = tgt ++ [ov])
  ∧ (∀ i, (tgt[i]?).map EnvVar.name = some ov.name →
      (∀ j, j < i → (tgt[j]?).map EnvVar.name ≠ some ov.name) →
      mergeEnv [ov] tgt = tgt.set i { name := ov.name, value := ov.value })
  ∧ (List.Pairwise (fun a b => EnvVar.name a ≠ EnvVar.name b) ovs →
      mergeEnv ovs [] = ovs) := by
  refine ⟨?_, ?_, ?_, ?_⟩
  · simp [mergeEnv, List.foldl_append]
  · intro hfresh
    rw [mergeEnv_single, mergeEnvOne, if_neg (by simp [hfresh])]
  · intro i hi hfirst
    rw [mergeEnv_single, mergeEnvOne,
      if_pos (envContainsName_of_getElem? ov.name tgt i hi)]
    exact replaceFirst_eq_set ov.name ov.value tgt i hi hfirst
  · intro hdist
    rw [mergeEnv_fresh_distinct_append ovs [] (fun o _ => rfl) hdist]
    simp

/-- C4 witness: merging `A=9` into `[B=0, A=1, A=2]` replaces the first
`A` entry in place and leaves the later duplicate untouched. -/
theorem mergeEnv_override_step_characterization_witness :
    mergeEnv [ { name := "A", value := "9" } ]
        [ { name := "B", value := "0" }, { name := "A", value := "1" },
          { name := "A", value := "2" } ]
      = [ { name := "B", value := "0" }, { name := "A", value := "9" },
          { name := "A", value := "2" } ] := by
  have h := (mergeEnv_override_step_characterization
      { name := "A", value := "9" } [] []
      [ { name := "B", value := "0" }, { name := "A", value := "1" },
        { name := "A", value := "2" } ]).2.2.1 1 (by decide)
      (fun j hj => by
        have hj0 : j = 0 := Nat.lt_one_iff.mp hj
        subst hj0
        decide)
  rw [h]
  decide

/-- C5: after the merge, every target position still holds an entry of
the same name (no entry is ever removed and the relative order of the
target is preserved position by position); positions whose name is not
an override name are entirely unchanged; and the length grows by at most
the number of overrides whose names did not already occur in the
target. -/
theorem mergeEnv_preserves_target (ovs tgt : List EnvVar) :
    (∀ (i : Nat) (e : EnvVar), tgt[i]? = some e →
        ∃ e2 : EnvVar, (mergeEnv ovs tgt)[i]? = some e2 ∧ e2.name = e.name)
  ∧ (∀ (i : Nat) (e : EnvVar), tgt[i]? = some e →
        (∀ ov ∈ ovs, ov.name ≠ e.name) → (mergeEnv ovs tgt)[i]? = some e)
  ∧ tgt.length ≤ (mergeEnv ovs tgt).length
  ∧ (mergeEnv ovs tgt).length ≤
      tgt.length + (ovs.filter (fun ov => !envContainsName ov.name tgt)).length :=
  ⟨fun i e h => mergeEnv_getElem?_name ovs tgt i e h,
   fun i e h hne => mergeEnv_getElem?_frame ovs tgt i e h hne,
   length_le_mergeEnv ovs tgt,
   mergeEnv_length_le ovs tgt⟩

/-- C5 witness: merging the override `K=9` into `[E=1, K=0]` leaves the
differently-named entry `E=1` unchanged at its position. -/
theorem mergeEnv_preserves_target_witness :
    (mergeEnv [ { name := "K", value := "9" } ]
        [ { name := "E", value := "1" }, { name := "K", value := "0" } ])[0]?
      = some { name := "E", value := "1" } :=
  (mergeEnv_preserves_target [ { name := "K", value := "9" } ]
      [ { name := "E", value := "1" }, { name := "K", value := "0" } ]).2.1
    0 { name := "E", value := "1" } (by decide) (by decide)

/-- C6: when the enabled transformer fails on a workload-kind document,
the document is left exactly as provided: a decode failure returns the
decode error with the document untouched (no encode is reached), and an
encode failure after the in-memory mutation returns the encode error
with the document's stored form not overwritten. -/
theorem transform_error_no_partial_mutation (mv : String) (u : Unstructured)
    (hmv : mv ≠ "") (hk : isWorkloadKind u.kind = true) :
    (u.decodeOk = false →
        KubernetesMinVersionTransform mv u = (u, some decodeErr))
  ∧ (u.decodeOk = true → u.encodeOk = false →
        KubernetesMinVersionTransform mv u = (u, some encodeErr)) := by
  constructor
  · intro hd
    rw [transform_workload_eq mv u hmv hk]
    exact workloadMutate_decode_fail _ u hd
  · intro hd he
    rw [transform_workload_eq mv u hmv hk]
    exact workloadMutate_encode_fail _ u hd he

/-- C6 witness: on the undecodable Deployment, the enabled transformer
returns the decode error and the unchanged document. -/
theorem transform_error_no_partial_mutation_witness :
    KubernetesMinVersionTransform "v1.25.0" badDoc = (badDoc, some decodeErr) :=
  (transform_error_no_partial_mutation "v1.25.0" badDoc (by decide) (by decide)).1
    (by decide)

/-- C7: a document whose kind is outside the four workload kinds passes
through unchanged with success — enabled or disabled override alike —
including its creation timestamp. -/
theorem transform_unsupported_kind_passthrough (mv : String) (u : Unstructured)
    (hk : isWorkloadKind u.kind = false) :
    KubernetesMinVersionTransform mv u = (u, none) :=
  transform_other_eq mv u hk

/-- C7 witness: a ConfigMap document is returned unchanged by the
enabled transformer. -/
theorem transform_unsupported_kind_passthrough_witness :
    KubernetesMinVersionTransform "v1.25.0" configMapDoc = (configMapDoc, none) :=
  transform_unsupported_kind_passthrough "v1.25.0" configMapDoc (by decide)

/-- C8: whenever the transformer returns success, the document's kind,
name, namespace, residual fields, and the names/order of its containers
and init containers are unchanged; the creation timestamp is reset to
zero exactly in the enabled workload-kind case, and in every other
successful case the document is untouched entirely. -/
theorem transform_success_frame (mv : String) (u : Unstructured)
    (hok : (KubernetesMinVersionTransform mv u).2 = none) :
    ((KubernetesMinVersionTransform mv u).1.kind = u.kind)
  ∧ ((KubernetesMinVersionTransform mv u).1.name = u.name)
  ∧ ((KubernetesMinVersionTransform mv u).1.ns = u.ns)
  ∧ ((KubernetesMinVersionTransform mv u).1.otherFields = u.otherFields)
  ∧ ((KubernetesMinVersionTransform mv u).1.podSpec.containers.map Container.name
       = u.podSpec.containers.map Container.name)
  ∧ ((KubernetesMinVersionTransform mv u).1.podSpec.initContainers.map Container.name
       = u.podSpec.initContainers.map Container.name)
  ∧ (mv ≠ "" → isWorkloadKind u.kind = true →
       (KubernetesMinVersionTransform mv u).1.creationTimestamp = 0)
  ∧ ((mv = "" ∨ isWorkloadKind u.kind = false) →
       (KubernetesMinVersionTransform mv u).1 = u) := by
  by_cases hmv : mv = ""
  · subst hmv
    rw [transform_disabled_eq u]
    exact ⟨rfl, rfl, rfl, rfl, rfl, rfl, fun h _ => absurd rfl h, fun _ => rfl⟩
  · by_cases hk : isWorkloadKind u.kind = true
    · rw [transform_workload_eq mv u hmv hk] at hok ⊢
      obtain ⟨hd, he⟩ := (workloadMutate_success_iff _ u).mp hok
      rw [workloadMutate_success _ u hd he]
      refine ⟨rfl, rfl, rfl, rfl, ?_, ?_, fun _ _ => rfl, ?_⟩
      · simp [applyMinVersionEnvVar, List.map_map, Function.comp]
      · simp [applyMinVersionEnvVar, List.map_map, Function.comp]
      · rintro (h | h)
        · exact absurd h hmv
        · rw [hk] at h
          exact Bool.noConfusion h
    · have hk2 : isWorkloadKind u.kind = false := by simpa using hk
      rw [transform_other_eq mv u hk2]
      refine ⟨rfl, rfl, rfl, rfl, rfl, rfl, fun _ hkk => ?_, fun _ => rfl⟩
      rw [hk2] at hkk
      exact Bool.noConfusion hkk

/-- C8 witness: on the test Deployment the successful enabled transform
resets the creation timestamp to zero. -/
theorem transform_success_frame_witness :
    (KubernetesMinVersionTransform "v1.25.0" sampleDoc).1.creationTimestamp = 0 :=
  (transform_success_frame "v1.25.0" sampleDoc (by decide)).2.2.2.2.2.2.1
    (by decide) (by decide)

/-- C9: the transformer built from an empty override value succeeds
without error on every document, even a workload-kind document whose
contents would fail decoding under the enabled transformer — it never
inspects its document argument. -/
theorem transform_disabled_never_decodes (u : Unstructured)
    (hd : u.decodeOk = false) (hk : isWorkloadKind u.kind = true) :
    KubernetesMinVersionTransform "" u = (u, none) :=
  transform_disabled_eq u

/-- C9 witness: the disabled transformer succeeds on the undecodable
Deployment document. -/
theorem transform_disabled_never_decodes_witness :
    KubernetesMinVersionTransform "" badDoc = (badDoc, none) :=
  transform_disabled_never_decodes badDoc (by decide) (by decide)

/-- C10: on a decodable, encodable workload-kind document whose pod
template has no containers and no init containers, the enabled
transformer still performs the round trip and returns success with the
creation timestamp zeroed and no environment entry injected anywhere
(the pod spec is unchanged). -/
theorem transform_empty_template_only_timestamp (mv : String) (u : Unstructured)
    (hmv : mv ≠ "") (hk : isWorkloadKind u.kind = true)
    (hd : u.decodeOk = true) (he : u.encodeOk = true)
    (hc : u.podSpec.containers = []) (hi : u.podSpec.initContainers = []) :
    KubernetesMinVersionTransform mv u
      = ({ u with creationTimestamp := 0 }, none) := by
  rw [transform_workload_eq mv u hmv hk, workloadMutate_success _ u hd he]
  have hps : applyMinVersionEnvVar u.podSpec
      [{ name := KubernetesMinVersionKey, value := mv }] = u.podSpec := by
    cases hps0 : u.podSpec with
    | mk cs is =>
      rw [hps0] at hc hi
      simp only at hc hi
      subst hc
      subst hi
      simp [applyMinVersionEnvVar]
  rw [hps]

/-- C10 witness: a Job with an empty pod template comes back successful
with only its creation timestamp zeroed. -/
theorem transform_empty_template_only_timestamp_witness :
    KubernetesMinVersionTransform "v1.25.0" emptyTemplateDoc
      = ({ emptyTemplateDoc with creationTimestamp := 0 }, none) :=
  transform_empty_template_only_timestamp "v1.25.0" emptyTemplateDoc
    (by decide) (by decide) (by decide) (by decide) (by decide) (by decide)
